import Mathlib

/-!
Verification of the sparse partial-derivative registry and total-derivative
assembly engine documented for this repository. The repository's sources
contain the documentation notebook for sparse partial declarations (the
`SparsePartialComp` examples with their asserted outputs); the engine itself
(pattern validation, partials registry, Jacobian assembly, total-derivative
solver) is not among the source files, so those parts are modelled from the
spec, and the notebook's concrete scenarios and asserted outputs are replayed
against the model. Values are modelled as exact rationals; every number in
the scenarios is an exactly representable small integer.
-/

namespace OpenMDAO

/-- Modelled from the spec: a SparsityPattern is an ordered sequence of
(row, col) integer pairs in COO/AIJ format together with a `shape =
(n_rows, n_cols)`. The ordering of the pairs is the pattern's primary
contract: later-supplied values align positionally with it. -/
structure SparsityPattern where
  n_rows : Nat
  n_cols : Nat
  rows : List Nat
  cols : List Nat
deriving DecidableEq, Repr

/-- Modelled from the spec: the validity check for a declared pattern —
row/col sequences have equal length, every row index lies in `[0, n_rows)`
and every col index in `[0, n_cols)`. -/
def patternValid (nr nc : Nat) (rows cols : List Nat) : Bool :=
  rows.length == cols.length && rows.all (· < nr) && cols.all (· < nc)

/-- Modelled from the spec: the error signalled when a declared sparsity
pattern is invalid (`InvalidSparsityError`). -/
inductive SparsityErr where
  | invalidSparsity
deriving DecidableEq, Repr

/-- Modelled from the spec: constructing a SparsityPattern from explicit
row/col index sequences. Validation fails with `InvalidSparsityError` if any
index is out of the declared shape bounds or if the sequence lengths differ;
a valid pattern is stored exactly as given, never clamped or permuted. -/
def mkPattern (nr nc : Nat) (rows cols : List Nat) :
    Except SparsityErr SparsityPattern :=
  if patternValid nr nc rows cols then
    .ok ⟨nr, nc, rows, cols⟩
  else
    .error .invalidSparsity

/-- Modelled from the spec: one PartialEntry — a sparsity pattern, a values
buffer of length equal to the number of declared nonzeros, and the
`is_constant` flag (values supplied once and never recomputed). -/
structure PartialEntry where
  pattern : SparsityPattern
  values : List ℚ
  is_constant : Bool
deriving DecidableEq, Repr

/-- Modelled from the spec: the PartialsRegistry maps (output, input) name
pairs to declared partial entries, in declaration order. -/
abbrev Registry := List ((String × String) × PartialEntry)

/-- Modelled from the spec: declaration-time errors — duplicate declaration
of an (output, input) pair, invalid sparsity, or an initial value whose
length does not match the pattern's nonzero count. -/
inductive DeclErr where
  | invalidSparsity
  | duplicateDeclaration
  | shapeMismatch
deriving DecidableEq, Repr

/-- Modelled from the spec: first entry registered for the (output, input)
pair, if any. -/
def findEntry : Registry → String → String → Option PartialEntry
  | [], _, _ => none
  | p :: rest, o, i => if p.1 = (o, i) then some p.2 else findEntry rest o i

/-- Modelled from the spec: `declare(output, input, pattern, initial_value,
constant)` — registers one PartialEntry. Fails with
`DuplicateDeclarationError` if the pair is already declared, with
`InvalidSparsityError` if the pattern is invalid, and with
`ShapeMismatchError` if a supplied initial value does not match the
pattern's nonzero count. Without an initial value the storage is allocated
zero-filled. -/
def declare (r : Registry) (o i : String) (nr nc : Nat)
    (rows cols : List Nat) (val : Option (List ℚ)) (constant : Bool) :
    Except DeclErr Registry :=
  if (findEntry r o i).isSome then
    .error .duplicateDeclaration
  else
    match mkPattern nr nc rows cols with
    | .error _ => .error .invalidSparsity
    | .ok pat =>
      match val with
      | none => .ok (r ++ [((o, i), ⟨pat, List.replicate rows.length 0, constant⟩)])
      | some v =>
        if v.length = rows.length then
          .ok (r ++ [((o, i), ⟨pat, v, constant⟩)])
        else
          .error .shapeMismatch

/-- Modelled from the spec: declaration whose sparsity pattern and values
are deduced from an externally supplied sparse-matrix structure exposing
(row, col, value) triples. -/
def declare_from_coo (r : Registry) (o i : String) (nr nc : Nat)
    (triples : List (Nat × Nat × ℚ)) (constant : Bool) :
    Except DeclErr Registry :=
  declare r o i nr nc (triples.map (·.1)) (triples.map (·.2.1))
    (some (triples.map (·.2.2))) constant

/-- Modelled from the spec: update errors — `ImmutablePartialError` when a
`constant=True` entry is overwritten, or the pair was never declared. -/
inductive SetErr where
  | immutable
  | undeclared
deriving DecidableEq, Repr

/-- Modelled from the spec: apply a function to the value buffer and flags of
the first entry registered for `key`, leaving every other entry alone. This
is the functional rendering of in-place mutation of the single buffer the
registry owns for that pair. -/
def mapEntry : Registry → (String × String) → (PartialEntry → PartialEntry) → Registry
  | [], _, _ => []
  | p :: rest, key, f =>
    if p.1 = key then (p.1, f p.2) :: rest else p :: mapEntry rest key f

/-- Modelled from the spec: `get_view(output, input)` — the current value
buffer of the entry for the pair. The registry owns a single buffer per
entry; retrieval always yields that buffer's current contents. -/
def get_view (r : Registry) (o i : String) : Option (List ℚ) :=
  (findEntry r o i).map (·.values)

/-- Modelled from the spec: one in-place write through the mutable view —
position `k` of the entry's value buffer is overwritten with `v`. -/
def write_view (r : Registry) (o i : String) (k : Nat) (v : ℚ) : Registry :=
  mapEntry r (o, i) (fun e => { e with values := e.values.set k v })

/-- Modelled from the notebook's `compute_partials`: a write of a machine
integer through the view stores it coerced to the buffer's numeric type. -/
def write_view_int (r : Registry) (o i : String) (k : Nat) (v : Int) : Registry :=
  write_view r o i k (v : ℚ)

/-- Modelled from the spec: `set_values(output, input, values)` — bulk
replacement of the entry's value buffer; fails with `ImmutablePartialError`
if the entry was declared `constant=True`. -/
def set_values (r : Registry) (o i : String) (vals : List ℚ) :
    Except SetErr Registry :=
  match findEntry r o i with
  | none => .error .undeclared
  | some e =>
    if e.is_constant then
      .error .immutable
    else
      .ok (mapEntry r (o, i) (fun e => { e with values := vals }))

/-- Modelled from the spec: the registry observed after a `set_values` call —
the updated registry on success, the unchanged registry when the call
failed. -/
def applySetValues (r : Registry) (o i : String) (vals : List ℚ) : Registry :=
  match set_values r o i vals with
  | .ok r2 => r2
  | .error _ => r

/-- Modelled from the notebook's in-place `compute_partials`: write the
values one position at a time through the view, starting at position `k`,
in the order of the declared (row, col) sequence. -/
def write_from (r : Registry) (o i : String) (k : Nat) : List ℚ → Registry
  | [] => r
  | v :: vs => write_from (write_view r o i k v) o i (k + 1) vs

/-- Modelled from the notebook's in-place `compute_partials`: one value per
declared nonzero, written through the view in declaration order. -/
def write_seq (r : Registry) (o i : String) (vals : List ℚ) : Registry :=
  write_from r o i 0 vals

/-- Modelled from the notebook's in-place update: successive overwrites of a
value buffer, one position at a time starting at position `k`. -/
def setSeq (l : List ℚ) (k : Nat) : List ℚ → List ℚ
  | [] => l
  | v :: vs => setSeq (l.set k v) (k + 1) vs

/-- Modelled from the spec: a scalar state variable — a variable name
together with a flat index into the variable's value vector. -/
abbrev SVar := String × Nat

/-- Modelled from the spec: the scalar states of one sized variable. -/
def scalarsOf (v : String × Nat) : List SVar :=
  (List.range v.2).map (fun k => (v.1, k))

/-- Modelled from the spec: the dense (i, j) coefficient of one declared
block — the sum of the stored values at every pattern position (i, j), so
duplicate (row, col) pairs accumulate additively (the documented policy for
the spec's open question). -/
def denseEntry (e : PartialEntry) (i j : Nat) : ℚ :=
  (((e.pattern.rows.zip e.pattern.cols).zip e.values).map
    (fun q => if q.1.1 = i ∧ q.1.2 = j then q.2 else 0)).sum

/-- Modelled from the spec: the JacobianAssembler — every declared block is
placed into one global list of scalar-level coefficients, keyed by
(output scalar, input scalar), in declaration order. -/
def assemble (m : Registry) : List ((SVar × SVar) × ℚ) :=
  (m.map (fun p =>
    ((List.range p.2.pattern.n_rows).map (fun i =>
      (List.range p.2.pattern.n_cols).map (fun j =>
        (((p.1.1, i), (p.1.2, j)), denseEntry p.2 i j)))).flatten)).flatten

/-- Modelled from the spec: coefficient lookup in the assembled global
operator; absent pairs are structural zeros. -/
def lookupJ (L : List ((SVar × SVar) × ℚ)) (s w : SVar) : ℚ :=
  ((L.find? (fun q => decide (q.1 = (s, w)))).map (·.2)).getD 0

/-- Modelled from the spec: one step of forward chain-rule accumulation.
Processing variable `v`, each of its scalars `s` receives the total
derivative w.r.t. the design scalar `d`: `1` if `s = d`, plus the
contributions `J s w * dtot w d` over every already-processed scalar `w`.
For an explicit acyclic model this is exactly the forward substitution the
solver performs on the unit-triangular relation `dR/dU`. -/
def dtotStep (J : SVar → SVar → ℚ) (d : SVar) (acc : List (SVar × ℚ))
    (v : String × Nat) : List (SVar × ℚ) :=
  acc ++ (scalarsOf v).map (fun s =>
    (s, (if s = d then (1 : ℚ) else 0) + (acc.map (fun q => J s q.1 * q.2)).sum))

/-- Modelled from the spec: total derivatives of every scalar state w.r.t.
the design scalar `d`, accumulated over the variables in topological
order. -/
def dtotTable (J : SVar → SVar → ℚ) (d : SVar) (vars : List (String × Nat)) :
    List (SVar × ℚ) :=
  vars.foldl (dtotStep J d) []

/-- Modelled from the spec: the total derivative of scalar `s` w.r.t. the
design scalar `d`; scalars outside the model are independent, hence zero. -/
def dtotJ (J : SVar → SVar → ℚ) (vars : List (String × Nat)) (s d : SVar) : ℚ :=
  (((dtotTable J d vars).find? (fun q => decide (q.1 = s))).map (·.2)).getD 0

/-- Modelled from the spec: a model — its sized variables in topological
order (design leaves first) plus the registry of declared partial blocks. -/
structure CModel where
  vars : List (String × Nat)
  parts : Registry
deriving DecidableEq

/-- Modelled from the spec: the model's assembled global operator. -/
def modelJ (m : CModel) : SVar → SVar → ℚ :=
  lookupJ (assemble m.parts)

/-- Modelled from the spec: the declared size of a variable. -/
def varSize (m : CModel) (v : String) : Nat :=
  ((m.vars.find? (fun q => decide (q.1 = v))).map (·.2)).getD 0

/-- Modelled from the spec: scalar total derivative in the model. -/
def dtot (m : CModel) (s d : SVar) : ℚ :=
  dtotJ (modelJ m) m.vars s d

/-- Modelled from the spec: the dense total-derivative block delivered for
one requested (of, wrt) variable pair. -/
def totalsBlock (m : CModel) (ofv wrtv : String) : List (List ℚ) :=
  (List.range (varSize m ofv)).map (fun i =>
    (List.range (varSize m wrtv)).map (fun j => dtot m (ofv, i) (wrtv, j)))

/-- Modelled from the spec: solve-time failure — `SingularJacobianError`.
For the explicit acyclic models treated here the assembled relation is unit
triangular and never singular. -/
inductive SolveErr where
  | singularJacobian
deriving DecidableEq, Repr

/-- Modelled from the spec: the per-pair blocks of one total-derivative
request, keyed like the notebook's `totals` dictionary. -/
def blocksOf (m : CModel) (of wrt : List String) :
    List ((String × String) × List (List ℚ)) :=
  (of.map (fun o => wrt.map (fun w => ((o, w), totalsBlock m o w)))).flatten

/-- Modelled from the notebook's `compute_totals`: the total-derivative
request returning one dense block per requested (of, wrt) pair. -/
def compute_totals (m : CModel) (of wrt : List String) :
    Except SolveErr (List ((String × String) × List (List ℚ))) :=
  .ok (blocksOf m of wrt)

/-- Modelled from the notebook: indexing the returned totals by an
(of, wrt) pair. -/
def totalsAt (t : List ((String × String) × List (List ℚ))) (o w : String) :
    Option (List (List ℚ)) :=
  (t.find? (fun q => decide (q.1 = (o, w)))).map (·.2)

/-- Modelled from the spec: the dense matrix of shape
`(len(of), len(wrt))` delivered for a scalar-level request. -/
def resultMatrix (m : CModel) (of wrt : List SVar) : List (List ℚ) :=
  of.map (fun s => wrt.map (fun d => dtot m s d))

/-- Modelled from the spec: `request_totals(of, wrt)` — the dense deliverable
of one total-derivative request over scalar response and design lists. -/
def request_totals (m : CModel) (of wrt : List SVar) :
    Except SolveErr (List (List ℚ)) :=
  .ok (resultMatrix m of wrt)

/-- Modelled from the spec: the solver's two strategies — forward/direct and
reverse/adjoint. -/
inductive SolveMode where
  | forward
  | reverse
deriving DecidableEq, Repr

/-- Modelled from the spec: mode selection — reverse/adjoint when
`len(of) < len(wrt)`, forward/direct when `len(wrt) ≤ len(of)`. -/
def chooseMode (nof nwrt : Nat) : SolveMode :=
  if nof < nwrt then .reverse else .forward

/-- Modelled from the spec: the number of linear solves one request
performs — one per response in reverse mode, one per design variable in
forward mode. -/
def numLinearSolves (of wrt : List String) : Nat :=
  match chooseMode of.length wrt.length with
  | .reverse => of.length
  | .forward => wrt.length

/-- Modelled from the spec: the solver's long-lived state — the model and
the cached assembled operator, kept across requests and invalidated only
when declared structure changes. -/
structure SolverState where
  model : CModel
  cachedJ : Option (List ((SVar × SVar) × ℚ))
deriving DecidableEq

/-- Modelled from the spec: a stateful total-derivative request — reuse the
cached assembled operator when present, otherwise assemble and cache it,
then solve and deliver the dense result. -/
def requestTotalsST (st : SolverState) (of wrt : List SVar) :
    List (List ℚ) × SolverState :=
  let J := st.cachedJ.getD (assemble st.model.parts)
  (of.map (fun s => wrt.map (fun d => dtotJ (lookupJ J) st.model.vars s d)),
    { st with cachedJ := some J })

/-- Modelled from the spec: a path of nonzero partials in the assembled
operator, from the design scalar `d` to the scalar `s`. -/
inductive Reaches (J : SVar → SVar → ℚ) (d : SVar) : SVar → Prop
  | refl : Reaches J d d
  | step {s w : SVar} : J s w ≠ 0 → Reaches J d w → Reaches J d s

/-- The notebook's first `SparsePartialComp` after `setup_partials`:
`declare_partials(of='f', wrt='x', rows=[0,1,1,1], cols=[0,1,2,3])` on a
component with input `x` of shape (4,) and output `f` of shape (2,). -/
def c1Setup : Registry :=
  (declare [] "f" "x" 2 4 [0, 1, 1, 1] [0, 1, 2, 3] none false).toOption.getD []

/-- The notebook's first `compute_partials`: the bulk assignment
`partials['f', 'x'] = [1., 2., 3., 4.]`. -/
def c1Filled : Registry := applySetValues c1Setup "f" "x" [1, 2, 3, 4]

/-- The notebook's first model: the single explicit component with design
input `x` and response `f`. -/
def c1Model : CModel := ⟨[("x", 4), ("f", 2)], c1Filled⟩

/-- The notebook's second `compute_partials`: the view
`pd = partials['f', 'x']` updated in place, `pd[0] = 1.`, `pd[1] = 2.`,
`pd[2] = 3.`, `pd[3] = 4` (the last write an integer). -/
def c3Filled : Registry :=
  write_view_int (write_view (write_view (write_view c1Setup "f" "x" 0 1)
    "f" "x" 1 2) "f" "x" 2 3) "f" "x" 3 4

/-- The notebook's second model, filled through the mutable view. -/
def c3Model : CModel := ⟨[("x", 4), ("f", 2)], c3Filled⟩

/-- The notebook's third `SparsePartialComp` after `setup_partials`: the
('f','x') block declared with `val=[1.,2.,3.,4.]`, and the ('f','y') block
declared from `sp.sparse.eye(2, format='csc')`, whose (row, col, value)
triples are (0,0,1) and (1,1,1); its `compute_partials` writes nothing. -/
def c4Setup : Registry :=
  ((declare [] "f" "x" 2 4 [0, 1, 1, 1] [0, 1, 2, 3]
      (some [1, 2, 3, 4]) false).bind
    (fun r => declare_from_coo r "f" "y" 2 2 [(0, 0, 1), (1, 1, 1)] false)).toOption.getD []

/-- The notebook's third model: inputs `x` (4,) and `y` (2,), output `f`
(2,), partials supplied once at declaration time. -/
def c4Model : CModel := ⟨[("x", 4), ("y", 2), ("f", 2)], c4Setup⟩

/-- A model with a design variable `q` that no declared partial connects to
the response `f`: the registry is empty, so no path of nonzero partials
exists anywhere. -/
def c5Model : CModel := ⟨[("q", 1), ("f", 1)], []⟩

/-- A registry holding one entry declared `constant=True` with its
once-supplied values. -/
def c8Reg : Registry :=
  (declare [] "f" "x" 2 4 [0, 1, 1, 1] [0, 1, 2, 3]
    (some [1, 2, 3, 4]) true).toOption.getD []

/-- C7: a sparsity declaration succeeds, returning exactly the given shape
and index sequences unmodified, precisely when the row and col sequences
have equal length and every index is in bounds; otherwise it fails with
`InvalidSparsityError` — never silently clamped or accepted. -/
theorem mkPattern_valid_iff (nr nc : Nat) (rows cols : List Nat) :
    (mkPattern nr nc rows cols = .ok ⟨nr, nc, rows, cols⟩ ↔
      (rows.length = cols.length ∧ (∀ a ∈ rows, a < nr) ∧ (∀ b ∈ cols, b < nc)))
    ∧ (mkPattern nr nc rows cols = .error .invalidSparsity ↔
      ¬(rows.length = cols.length ∧ (∀ a ∈ rows, a < nr) ∧ (∀ b ∈ cols, b < nc))) := by
  have hval : patternValid nr nc rows cols = true ↔
      (rows.length = cols.length ∧ (∀ a ∈ rows, a < nr) ∧ (∀ b ∈ cols, b < nc)) := by
    simp [patternValid, List.all_eq_true, and_assoc]
  constructor
  · constructor
    · intro h
      rw [← hval]
      by_contra hc
      simp only [mkPattern, Bool.not_eq_true] at h
      rw [Bool.not_eq_true] at hc
      simp [hc] at h
    · intro h
      rw [← hval] at h
      simp [mkPattern, h]
  · constructor
    · intro h
      rw [← hval]
      intro hc
      simp [mkPattern, hc] at h
    · intro h
      rw [← hval] at h
      rw [Bool.not_eq_true] at h
      simp [mkPattern, h]

/-- Updating the first entry for a key with the identity leaves the registry
unchanged. -/
theorem mapEntry_id (r : Registry) (key : String × String) :
    mapEntry r key (fun e => e) = r := by
  induction r with
  | nil => rfl
  | cons p rest ih =>
    by_cases h : p.1 = key
    · subst h
      simp [mapEntry]
    · simp [mapEntry, h, ih]

/-- Two successive updates of the first entry for a key compose. -/
theorem mapEntry_comp (r : Registry) (key : String × String)
    (f g : PartialEntry → PartialEntry) :
    mapEntry (mapEntry r key f) key g = mapEntry r key (fun e => g (f e)) := by
  induction r with
  | nil => rfl
  | cons p rest ih =>
    by_cases h : p.1 = key
    · simp [mapEntry, h]
    · simp [mapEntry, h, ih]

/-- Retrieval after an update of the same key sees exactly the updated
entry. -/
theorem findEntry_mapEntry (r : Registry) (o i : String)
    (f : PartialEntry → PartialEntry) :
    findEntry (mapEntry r (o, i) f) o i = (findEntry r o i).map f := by
  induction r with
  | nil => rfl
  | cons p rest ih =>
    by_cases h : p.1 = (o, i)
    · simp [mapEntry, findEntry, h]
    · simp [mapEntry, findEntry, h, ih]

/-- Updates of the first entry for a key agree whenever the two update
functions agree on the entry actually found there. -/
theorem mapEntry_congr_found (r : Registry) (o i : String) (e : PartialEntry)
    (f g : PartialEntry → PartialEntry)
    (he : findEntry r o i = some e) (hfg : f e = g e) :
    mapEntry r (o, i) f = mapEntry r (o, i) g := by
  induction r with
  | nil => rfl
  | cons p rest ih =>
    by_cases h : p.1 = (o, i)
    · simp only [findEntry, h, if_pos, Option.some.injEq] at he
      simp [mapEntry, h, he ▸ hfg]
    · simp only [findEntry, h, if_neg, not_false_iff] at he
      simp [mapEntry, h, ih he]

/-- Retrieving the view again after a write through it sees the write: the
registry hands out views of the single buffer it owns, never copies. -/
theorem get_view_write_view (r : Registry) (o i : String) (k : Nat) (v : ℚ) :
    get_view (write_view r o i k v) o i
      = (get_view r o i).map (fun l => l.set k v) := by
  unfold get_view write_view
  rw [findEntry_mapEntry]
  cases findEntry r o i <;> rfl

/-- A sequence of single-position writes is one update of the found entry's
buffer by the corresponding sequence of list overwrites. -/
theorem write_from_eq (o i : String) (vs : List ℚ) :
    ∀ (r : Registry) (k : Nat),
      write_from r o i k vs
        = mapEntry r (o, i) (fun e => { e with values := setSeq e.values k vs }) := by
  induction vs with
  | nil =>
    intro r k
    exact (mapEntry_id r (o, i)).symm
  | cons v vs ih =>
    intro r k
    rw [write_from, ih, write_view, mapEntry_comp]
    rfl

/-- Overwriting positions `k, k+1, …` of a buffer keeps its prefix and the
position `k` value. -/
theorem take_set_succ (l : List ℚ) (k : Nat) (v : ℚ) (h : k < l.length) :
    (l.set k v).take (k + 1) = l.take k ++ [v] := by
  induction l generalizing k with
  | nil => simp at h
  | cons a tl ih =>
    cases k with
    | zero => simp
    | succ k =>
      simp only [List.set_cons_succ, List.take_succ_cons, List.take]
      rw [ih k (by simpa using h)]
      rfl

/-- Writing every position of a buffer in order, starting at `k`, replaces
everything from position `k` on. -/
theorem setSeq_eq_of_length (vs : List ℚ) :
    ∀ (l : List ℚ) (k : Nat), l.length = k + vs.length →
      setSeq l k vs = l.take k ++ vs := by
  induction vs with
  | nil =>
    intro l k h
    simp only [List.length_nil] at h
    simp only [setSeq, List.append_nil]
    exact (List.take_of_length_le (by omega)).symm
  | cons v vs ih =>
    intro l k h
    simp only [List.length_cons] at h
    rw [setSeq, ih (l.set k v) (k + 1) (by simp only [List.length_set]; omega),
      take_set_succ l k v (by omega)]
    simp

/-- Writing one value per position through the view, in declaration order,
produces exactly the registry that a successful bulk `set_values` of the
same list produces. -/
theorem write_seq_eq_set_values (r : Registry) (o i : String) (vals : List ℚ)
    (e : PartialEntry) (he : findEntry r o i = some e)
    (hc : e.is_constant = false) (hl : e.values.length = vals.length) :
    write_seq r o i vals = applySetValues r o i vals := by
  unfold applySetValues set_values
  simp only [he, hc, Bool.false_eq_true, if_false]
  rw [write_seq, write_from_eq]
  apply mapEntry_congr_found r o i e _ _ he
  have hz : setSeq e.values 0 vals = vals := by
    rw [setSeq_eq_of_length vals e.values 0 (by omega)]
    rfl
  rw [hz]

/-- Every nonzero total in the accumulation table is justified by a path of
nonzero partials from the design scalar. -/
theorem dtotTable_reaches (J : SVar → SVar → ℚ) (d : SVar) (vars : List (String × Nat)) :
    ∀ (acc : List (SVar × ℚ)), (∀ q ∈ acc, q.2 ≠ 0 → Reaches J d q.1) →
      ∀ q ∈ vars.foldl (dtotStep J d) acc, q.2 ≠ 0 → Reaches J d q.1 := by
  induction vars with
  | nil =>
    intro acc h
    simpa using h
  | cons v vars ih =>
    intro acc hacc
    rw [List.foldl_cons]
    apply ih
    intro q hq hq2
    rw [dtotStep, List.mem_append] at hq
    rcases hq with hq | hq
    · exact hacc q hq hq2
    · rcases List.mem_map.mp hq with ⟨s, hs, rfl⟩
      by_cases hsd : s = d
      · rw [hsd]
        exact Reaches.refl
      · have hsum : (acc.map (fun p => J s p.1 * p.2)).sum ≠ 0 := by
          simpa [hsd] using hq2
        have hex : ∃ x ∈ acc.map (fun p => J s p.1 * p.2), x ≠ 0 := by
          by_contra hco
          push_neg at hco
          exact hsum (List.sum_eq_zero hco)
        rcases hex with ⟨x, hx, hxne⟩
        rcases List.mem_map.mp hx with ⟨p, hp, rfl⟩
        have hmul := mul_ne_zero_iff.mp hxne
        exact Reaches.step hmul.1 (hacc p hp hmul.2)

/-- In an operator with no nonzero coefficient at all, a path of nonzero
partials can only be the empty path. -/
theorem reaches_eq_of_zero (J : SVar → SVar → ℚ) (d s : SVar)
    (h0 : ∀ a b : SVar, J a b = 0) (h : Reaches J d s) : s = d := by
  induction h with
  | refl => rfl
  | step hne _ _ => exact absurd (h0 _ _) hne

/-- C2: for every total-derivative request the number of linear solves
equals `min(len(of), len(wrt))`: reverse/adjoint mode (one solve per
response) is chosen when `len(of) < len(wrt)`, forward/direct mode (one
solve per design variable) when `len(wrt) ≤ len(of)`. -/
theorem mode_selection_min_solves (of wrt : List String) :
    numLinearSolves of wrt = min of.length wrt.length
    ∧ (of.length < wrt.length → chooseMode of.length wrt.length = .reverse)
    ∧ (wrt.length ≤ of.length → chooseMode of.length wrt.length = .forward) := by
  by_cases h : of.length < wrt.length
  · refine ⟨?_, fun _ => ?_, fun h2 => absurd h2 (by omega)⟩
    · simp only [numLinearSolves, chooseMode, h, if_pos]
      omega
    · simp [chooseMode, h]
  · refine ⟨?_, fun h2 => absurd h2 (by omega), fun _ => ?_⟩
    · simp only [numLinearSolves, chooseMode, h, if_neg, not_false_iff]
      omega
    · simp [chooseMode, h]

/-- Witness for C2: a request with 1 response and 2 design variables makes
1 solve in reverse mode; 1 design variable and 2 responses make 1 solve in
forward mode. -/
theorem mode_selection_min_solves_witness :
    numLinearSolves ["a"] ["b", "c"] = 1
    ∧ chooseMode 1 2 = .reverse
    ∧ chooseMode 1 2 = chooseMode (List.length ["a"]) (List.length ["b", "c"])
    ∧ chooseMode 2 1 = .forward :=
  ⟨(mode_selection_min_solves ["a"] ["b", "c"]).1,
    (mode_selection_min_solves ["a"] ["b", "c"]).2.1 (by decide),
    rfl,
    (mode_selection_min_solves ["a", "b"] ["c"]).2.2 (by decide)⟩

/-- C6: every total-derivative request delivers a dense matrix of shape
`(len(of), len(wrt))`: one row per requested response scalar, each of
length the number of requested design scalars. -/
theorem totals_dense_shape (m : CModel) (of wrt : List SVar) :
    request_totals m of wrt = .ok (resultMatrix m of wrt)
    ∧ (resultMatrix m of wrt).length = of.length
    ∧ (resultMatrix m of wrt).map List.length
      = List.replicate of.length wrt.length := by
  refine ⟨rfl, by simp [resultMatrix], ?_⟩
  unfold resultMatrix
  rw [List.map_map]
  have h : (List.length ∘ fun s => wrt.map (fun d => dtot m s d))
      = Function.const SVar wrt.length := by
    funext s
    simp [Function.const]
  rw [h, List.map_const]

/-- C9: requesting totals twice with no state change in between yields
bit-identical results (and an identical solver state): the second request
reuses the cached assembled operator, which is exactly the operator the
first request assembled. -/
theorem request_totals_idempotent (st : SolverState) (of wrt : List SVar) :
    (requestTotalsST (requestTotalsST st of wrt).2 of wrt).1
      = (requestTotalsST st of wrt).1
    ∧ (requestTotalsST (requestTotalsST st of wrt).2 of wrt).2
      = (requestTotalsST st of wrt).2 := by
  cases st with
  | mk model cached =>
    cases cached <;> simp [requestTotalsST]

/-- C5: a requested (of, wrt) pair with no path of nonzero partials
connecting them anywhere in the graph is not an error: the request
succeeds, the pair's block is delivered, and it is exactly zero. -/
theorem disconnected_pair_zero_block (m : CModel) (of wrt : List String)
    (ofv wrtv : String) (hof : ofv ∈ of) (hwrt : wrtv ∈ wrt)
    (hdisc : ∀ i j : Nat, ¬ Reaches (modelJ m) (wrtv, j) (ofv, i)) :
    compute_totals m of wrt = .ok (blocksOf m of wrt)
    ∧ ((ofv, wrtv), totalsBlock m ofv wrtv) ∈ blocksOf m of wrt
    ∧ totalsBlock m ofv wrtv
      = List.replicate (varSize m ofv) (List.replicate (varSize m wrtv) (0 : ℚ)) := by
  have hz : ∀ i j : Nat, dtot m (ofv, i) (wrtv, j) = 0 := by
    intro i j
    unfold dtot dtotJ
    cases hfind : (dtotTable (modelJ m) (wrtv, j) m.vars).find?
        (fun q => decide (q.1 = (ofv, i))) with
    | none => rfl
    | some q =>
      have hmem := List.mem_of_find?_eq_some hfind
      have hpred := List.find?_some hfind
      have hq1 : q.1 = (ofv, i) := of_decide_eq_true hpred
      have h2 : q.2 = 0 := by
        by_contra h2
        exact hdisc i j (hq1 ▸
          dtotTable_reaches (modelJ m) (wrtv, j) m.vars [] (by simp) q hmem h2)
      simp [h2]
  refine ⟨rfl, ?_, ?_⟩
  · unfold blocksOf
    exact List.mem_flatten.mpr
      ⟨wrt.map (fun w => ((ofv, w), totalsBlock m ofv w)),
        List.mem_map_of_mem _ hof, List.mem_map_of_mem _ hwrt⟩
  · unfold totalsBlock
    rw [List.eq_replicate_iff]
    refine ⟨by simp, ?_⟩
    intro b hb
    rcases List.mem_map.mp hb with ⟨i, hi, rfl⟩
    rw [List.eq_replicate_iff]
    refine ⟨by simp, ?_⟩
    intro c hc
    rcases List.mem_map.mp hc with ⟨j, hj, rfl⟩
    exact hz i j

/-- Witness for C5: in the model whose registry is empty, the design
variable `q` is disconnected from the response `f`, the request succeeds
and the delivered ("f", "q") block is all zero. -/
theorem disconnected_pair_zero_block_witness :
    compute_totals c5Model ["f"] ["q"] = .ok (blocksOf c5Model ["f"] ["q"])
    ∧ totalsBlock c5Model "f" "q"
      = List.replicate (varSize c5Model "f")
          (List.replicate (varSize c5Model "q") (0 : ℚ)) := by
  have h := disconnected_pair_zero_block c5Model ["f"] ["q"] "f" "q"
    (by simp) (by simp)
    (fun i j hr => by
      have heq := reaches_eq_of_zero (modelJ c5Model) ("q", j) ("f", i)
        (fun a b => rfl) hr
      have hs : "f" = "q" := congrArg Prod.fst heq
      exact absurd hs (by decide))
  exact ⟨h.1, h.2.2⟩

/-- C8: `set_values` on an entry declared `constant=True` always fails with
`ImmutablePartialError`, and the registry — in particular the entry's value
buffer — is unchanged after the failed call. -/
theorem set_values_constant_immutable (r : Registry) (o i : String)
    (vals : List ℚ) (e : PartialEntry)
    (he : findEntry r o i = some e) (hc : e.is_constant = true) :
    set_values r o i vals = .error .immutable
    ∧ applySetValues r o i vals = r
    ∧ get_view (applySetValues r o i vals) o i = get_view r o i := by
  unfold applySetValues set_values
  simp [he, hc]

/-- C3: filling a declared partial through the mutable view, one value per
index in the order of the declared (row, col) sequence, produces the very
registry a single bulk assignment of the full list produces — hence
bit-identical totals, as the notebook's two models show — and retrieving
the view again after a write sees the write (same underlying storage). -/
theorem view_update_equiv (r : Registry) (o i : String) (vals : List ℚ)
    (e : PartialEntry) (he : findEntry r o i = some e)
    (hc : e.is_constant = false) (hl : e.values.length = vals.length) :
    write_seq r o i vals = applySetValues r o i vals
    ∧ (∀ (r2 : Registry) (o2 i2 : String) (k : Nat) (v : ℚ),
        get_view (write_view r2 o2 i2 k v) o2 i2
          = (get_view r2 o2 i2).map (fun l => l.set k v))
    ∧ compute_totals c3Model ["f"] ["x"] = compute_totals c1Model ["f"] ["x"] := by
  refine ⟨write_seq_eq_set_values r o i vals e he hc hl,
    fun r2 o2 i2 k v => get_view_write_view r2 o2 i2 k v, ?_⟩
  have h : c3Filled = c1Filled := by decide
  unfold compute_totals blocksOf totalsBlock varSize dtot modelJ
  rw [show c3Model = c1Model from congrArg (CModel.mk [("x", 4), ("f", 2)]) h]

section

attribute [local semireducible] Rat.add Rat.mul

/-- Witness for C3: filling the notebook component's ('f','x') buffer
positionally with [1,2,3,4] equals the bulk assignment of [1,2,3,4]. -/
theorem view_update_equiv_witness :
    write_seq c1Setup "f" "x" [1, 2, 3, 4]
      = applySetValues c1Setup "f" "x" [1, 2, 3, 4] :=
  (view_update_equiv c1Setup "f" "x" [1, 2, 3, 4]
    ⟨⟨2, 4, [0, 1, 1, 1], [0, 1, 2, 3]⟩, [0, 0, 0, 0], false⟩
    (by decide) (by decide) (by decide)).1

/-- Witness for C8: on the constant-declared entry, `set_values` fails with
`ImmutablePartialError` and the registry is unchanged. -/
theorem set_values_constant_immutable_witness :
    set_values c8Reg "f" "x" [9, 9, 9, 9] = .error .immutable
    ∧ applySetValues c8Reg "f" "x" [9, 9, 9, 9] = c8Reg :=
  ⟨(set_values_constant_immutable c8Reg "f" "x" [9, 9, 9, 9]
      ⟨⟨2, 4, [0, 1, 1, 1], [0, 1, 2, 3]⟩, [1, 2, 3, 4], true⟩
      (by decide) (by decide)).1,
    (set_values_constant_immutable c8Reg "f" "x" [9, 9, 9, 9]
      ⟨⟨2, 4, [0, 1, 1, 1], [0, 1, 2, 3]⟩, [1, 2, 3, 4], true⟩
      (by decide) (by decide)).2.1⟩

/-- C1: the notebook's component — partial of the length-2 output `f`
w.r.t. the length-4 input `x` declared with rows=[0,1,1,1],
cols=[0,1,2,3], values [1,2,3,4] supplied by `compute_partials` — yields
the dense 2×4 total-derivative block [[1,0,0,0],[0,2,3,4]]. -/
theorem sparse_declared_totals_dense :
    compute_totals c1Model ["f"] ["x"] = .ok (blocksOf c1Model ["f"] ["x"])
    ∧ totalsAt (blocksOf c1Model ["f"] ["x"]) "f" "x"
      = some [[1, 0, 0, 0], [0, 2, 3, 4]] :=
  ⟨rfl, by decide⟩

/-- C4: partials supplied once at declaration time — values [1,2,3,4] for
the explicit pattern on `x`, and the pattern and values deduced from the
2×2 sparse identity on `y` — with a `compute_partials` that writes nothing,
yield totals [[1,0,0,0],[0,2,3,4]] for ('f','x') and [[1,0],[0,1]] for
('f','y'). -/
theorem constant_initial_values_totals :
    compute_totals c4Model ["f"] ["x", "y"] = .ok (blocksOf c4Model ["f"] ["x", "y"])
    ∧ totalsAt (blocksOf c4Model ["f"] ["x", "y"]) "f" "x"
      = some [[1, 0, 0, 0], [0, 2, 3, 4]]
    ∧ totalsAt (blocksOf c4Model ["f"] ["x", "y"]) "f" "y"
      = some [[1, 0], [0, 1]] :=
  ⟨rfl, by decide, by decide⟩

/-- C10: writing the integer 4 (not 4.0) through the view at position 3 —
the (1,3) pattern slot — stores it coerced to the buffer's numeric type:
the registry equals the one produced by writing the number as a rational,
and the returned total-derivative block carries the value 4 at row 1,
column 3. -/
theorem int_write_coerced_totals :
    c3Filled = write_view (write_view (write_view (write_view c1Setup
        "f" "x" 0 1) "f" "x" 1 2) "f" "x" 2 3) "f" "x" 3 4
    ∧ totalsAt (blocksOf c3Model ["f"] ["x"]) "f" "x"
      = some [[1, 0, 0, 0], [0, 2, 3, 4]]
    ∧ ((totalsBlock c3Model "f" "x").getD 1 []).getD 3 0 = 4 := by
  refine ⟨?_, by decide, by decide⟩
  have h : ((4 : Int) : ℚ) = (4 : ℚ) := by norm_num
  unfold c3Filled write_view_int
  rw [h]

end

end OpenMDAO
